import Mathlib

/-!
Shallow embedding of the `ayo` structured-concurrency scope
(`src/ayo/scope.py`, class `ExecutionScope`), together with a model of the
parts of the asyncio runtime the scope relies on (task completion times,
`asyncio.gather`, cooperative cancellation).

Python machine state is passed explicitly; a Python exception is a value of
`PyExc`, and a mutating method that can raise returns the (possibly already
mutated) state together with an optional exception, mirroring the fact that
Python exceptions do not roll back prior mutations.
-/

namespace Ayo

/-- Scope life cycle (the `STATE` enum of `scope.py`). -/
inductive STATE where
  | INIT
  | ENTERED
  | EXITED
  | CANCELLED
  | TIMEDOUT
  deriving DecidableEq, Repr

/-- The integer value of each member of the `STATE` enum. -/
def STATE.value : STATE → Nat
  | .INIT => 0
  | .ENTERED => 1
  | .EXITED => 2
  | .CANCELLED => 3
  | .TIMEDOUT => 4

/-- The Python exceptions the embedded code can raise.  `IllegalStateError`
models the `AssertionError` of the state asserts in `enter`, `exit` and
`_cancel_scope`; `UsageError` models the `AssertionError` of the
context-manager assert in `cancel`; `DuplicateSubmissionError` models the
`RuntimeError` raised by `asap`; `Fault n` models an arbitrary non-cancellation
exception raised by the body of work item `n` (or by user code, for the
`__aexit__` argument). -/
inductive PyExc where
  | CancelledError
  | IllegalStateError
  | UsageError
  | DuplicateSubmissionError
  | Fault (n : Nat)
  deriving DecidableEq, Repr

/-- Terminal outcome of one awaited task, as `asyncio.gather` reports it. -/
inductive Outcome where
  | ok (id : Nat)
  | fault (id : Nat)
  | cancelledO
  deriving DecidableEq, Repr

/-- A user work item submitted to a scope: a coroutine identified by `id`
(two submissions are "the identical work value" exactly when their ids are
equal), whose body suspends for `duration` time units, submits the coroutines
`subs` into its scope while it runs, and finally either returns (when
`fault = false`) or raises (when `fault = true`). -/
inductive Work where
  | mk (id : Nat) (duration : Nat) (fault : Bool) (subs : List Work)

/-- Coroutine identity of a work item. -/
def Work.id : Work → Nat
  | .mk i _ _ _ => i

/-- Running time of a work item's body. -/
def Work.duration : Work → Nat
  | .mk _ d _ _ => d

/-- Whether the work item's body raises at the end of its run. -/
def Work.fault : Work → Bool
  | .mk _ _ f _ => f

/-- The work items this item submits into the scope while it runs. -/
def Work.subs : Work → List Work
  | .mk _ _ _ s => s

mutual

/-- Number of work items in a submission tree (the item plus all items it
transitively submits). -/
def sizeW : Work → Nat
  | .mk _ _ _ subs => 1 + sizeL subs

/-- Total number of work items in a forest of submission trees. -/
def sizeL : List Work → Nat
  | [] => 0
  | w :: ws => sizeW w + sizeL ws

end

theorem sizeW_pos (w : Work) : 1 ≤ sizeW w := by
  cases w with
  | mk i d f subs => simp [sizeW]

theorem sizeL_append (a b : List Work) : sizeL (a ++ b) = sizeL a + sizeL b := by
  induction a with
  | nil => simp [sizeL]
  | cons w ws ih => simp [sizeL, ih]; omega

theorem sizeL_flatMap_subs (ws : List Work) :
    sizeL (ws.flatMap Work.subs) + ws.length ≤ sizeL ws := by
  induction ws with
  | nil => simp [sizeL]
  | cons w ws ih =>
    cases w with
    | mk i d f subs =>
      simp only [List.flatMap_cons, sizeL_append, sizeL, sizeW, Work.subs, List.length_cons]
      omega

/-- One awaitable held in `tasks_to_await`: either the task created by
`enter()` from `trigger_timeout(seconds)` (sleep `seconds`, then call
`self.cancel()`), or a task created by `asap` from a user work item. -/
inductive Entry where
  | timer (seconds : Nat)
  | work (w : Work)

/-- The time at which the entry's task reaches a terminal state. -/
def Entry.doneTime : Entry → Nat
  | .timer s => s
  | .work w => w.duration

/-- Model of the asyncio collaborator: the exception an entry's task ends
with, if any, and when it is raised.  The timer task runs `trigger_timeout`:
after its sleep it calls `cancel()`, which raises `CancelledError` when the
scope was used as a context manager (`cm`) and trips the context-manager
assert (`UsageError`) otherwise.  A user task raises its own fault at the end
of its run when `fault` is set, and raises nothing otherwise. -/
def Entry.raiseOf (cm : Bool) : Entry → Option (Nat × PyExc)
  | .timer s => some (s, if cm then PyExc.CancelledError else PyExc.UsageError)
  | .work w => if w.fault then some (w.duration, PyExc.Fault w.id) else none

/-- The terminal outcome of an entry's task as an element of a `gather`
result list (used when no exception aborts the gather, or when
`return_exceptions` captures exceptions as results). -/
def Entry.outcomeOf : Entry → Outcome
  | .timer _ => Outcome.cancelledO
  | .work w => if w.fault then Outcome.fault w.id else Outcome.ok w.id

/-- The work items an entry's task submits into the scope while it runs. -/
def Entry.subsOf : Entry → List Work
  | .timer _ => []
  | .work w => w.subs

/-- Number of tasks in an entry's submission tree. -/
def sizeE : Entry → Nat
  | .timer _ => 1
  | .work w => sizeW w

/-- Total number of tasks in the submission trees of a list of entries. -/
def sizeEL : List Entry → Nat
  | [] => 0
  | e :: es => sizeE e + sizeEL es

/-- Latest terminal time among a batch of entries (when a `gather` over the
batch completes if nothing raises). -/
def maxDone : List Entry → Nat
  | [] => 0
  | e :: es => max e.doneTime (maxDone es)

/-- Keep the earlier of two possible raises (ties go to the entry listed
first, as asyncio wakes completion callbacks in order). -/
def pickRaise (acc r : Option (Nat × PyExc)) : Option (Nat × PyExc) :=
  match acc, r with
  | none, r => r
  | some a, none => some a
  | some a, some b => if b.1 < a.1 then some b else some a

/-- The first exception raised by any task of the batch, with its time. -/
def firstRaise (cm : Bool) (es : List Entry) : Option (Nat × PyExc) :=
  es.foldl (fun acc e => pickRaise acc (Entry.raiseOf cm e)) none

/-- The work items submitted into the scope during a batch join that ends at
time `t`: each task that reached its terminal point within the batch has, by
then, submitted all of its `subs` (submissions happen while the body runs,
before its terminal point). -/
def batchSubs (t : Nat) (es : List Entry) : List Entry :=
  es.flatMap fun e => if e.doneTime ≤ t then (e.subsOf).map Entry.work else []

/-- What one `await asyncio.gather(*batch, return_exceptions=re)` produces. -/
structure JoinResult where
  time : Nat
  exc : Option PyExc
  outcomes : List Outcome

/-- Model of `asyncio.gather` over one batch.  With `return_exceptions`
(`re`) set, every task's terminal outcome is captured as a result and the
gather completes when the last task does; otherwise the first exception
raised by a task aborts the await at that task's raise time (the remaining
tasks keep running but their results are discarded). -/
def gatherRun (cm re : Bool) (es : List Entry) : JoinResult :=
  if re then { time := maxDone es, exc := none, outcomes := es.map Entry.outcomeOf }
  else
    match firstRaise cm es with
    | some (t, e) => { time := t, exc := some e, outcomes := [] }
    | none => { time := maxDone es, exc := none, outcomes := es.map Entry.outcomeOf }

/-- Result of the batch loop in `ExecutionScope.exit`. -/
structure LoopResult where
  pending : List Entry
  awaited : List Entry
  elapsed : Nat
  results : List Outcome
  exc : Option PyExc

/-- The `while self.tasks_to_await:` loop of `ExecutionScope.exit`, with
explicit fuel (the fuel is irrelevant once larger than the number of pending
tasks, see `exitLoopF_congr`).  Each iteration adds the queued tasks to
`awaited_tasks`, gathers them, and clears the queue so that submissions made
by the batch's own tasks accumulate into a fresh batch; the outcome list
models the spec's result aggregation (`results` is a TODO in the source). -/
def exitLoopF (cm re : Bool) :
    Nat → List Entry → List Entry → Nat → List Outcome → LoopResult
  | _, [], awaited, elapsed, results =>
    { pending := [], awaited := awaited, elapsed := elapsed, results := results, exc := none }
  | 0, tta, awaited, elapsed, results =>
    { pending := tta, awaited := awaited, elapsed := elapsed, results := results, exc := none }
  | fuel + 1, e :: rest, awaited, elapsed, results =>
    let tta := e :: rest
    let j := gatherRun cm re tta
    let fresh := batchSubs j.time tta
    match j.exc with
    | some ex =>
      { pending := fresh, awaited := awaited ++ tta, elapsed := elapsed + j.time,
        results := results, exc := some ex }
    | none => exitLoopF cm re fuel fresh (awaited ++ tta) (elapsed + j.time) (results ++ j.outcomes)

/-- The batch loop of `ExecutionScope.exit`, fuelled adequately. -/
def joinAll (cm re : Bool) (tta awaited : List Entry) (elapsed : Nat)
    (results : List Outcome) : LoopResult :=
  exitLoopF cm re (sizeEL tta + 1) tta awaited elapsed results

/-- The fields of `ExecutionScope` (the task-factory bookkeeping of
`_parent_scope` / `_restore_parent_scope` is ambient thread-local state and
is not modelled; no claim touches it).  `tasks_to_await` is the insertion-
ordered dict of awaitables not yet handed to a gather, `awaited_tasks` the
tasks already included in some gather.  `results` is the result sequence the
spec ascribes to the scope (aggregation is a TODO in the source's `exit`);
it is modelled from the spec, S4.3: each joined batch appends its outcomes,
in batch order. -/
structure Scope where
  timeout : Option Nat := none
  return_exceptions : Bool := false
  tasks_to_await : List Entry := []
  awaited_tasks : List Entry := []
  results : List Outcome := []
  state : STATE := STATE.INIT
  used_as_context_manager : Bool := false
  timeout_handler : Option Entry := none

/-- Whether submitting `e` hits the `awaitable in self.tasks_to_await` check
against an already queued awaitable: only a work item equal (as a value) to
an already queued work item does; the timer coroutine is a fresh object. -/
def dupOf : Entry → Entry → Bool
  | .work w1, .work w2 => w1.id == w2.id
  | _, _ => false

/-- `ExecutionScope.asap`: raise `DuplicateSubmissionError` (the source's
`RuntimeError`) if the awaitable is already scheduled, otherwise turn it into
a task and record it under its awaitable in `tasks_to_await`. -/
def Scope.asap (s : Scope) (e : Entry) : Option PyExc × Scope :=
  if s.tasks_to_await.any (dupOf e) then (some PyExc.DuplicateSubmissionError, s)
  else (none, { s with tasks_to_await := s.tasks_to_await ++ [e] })

/-- `ExecutionScope.enter`: assert the state is `INIT`, move to `ENTERED`,
and, when a (truthy, hence nonzero) timeout is configured, submit the
`trigger_timeout` task and remember it in `_timeout_handler`. -/
def Scope.enter (s : Scope) : Option PyExc × Scope :=
  if s.state ≠ STATE.INIT then (some PyExc.IllegalStateError, s)
  else
    let s1 : Scope := { s with state := STATE.ENTERED }
    match s1.timeout with
    | some t =>
      if t = 0 then (none, s1)
      else
        match s1.asap (Entry.timer t) with
        | (none, s2) => (none, { s2 with timeout_handler := some (Entry.timer t) })
        | (some ex, s2) => (some ex, s2)
    | none => (none, s1)

/-- `ExecutionScope.__aenter__`: record the context-manager use, then enter. -/
def Scope.aenter (s : Scope) : Option PyExc × Scope :=
  Scope.enter { s with used_as_context_manager := true }

/-- `ExecutionScope.cancel_timeout`: the cancel request it issues (on the
timer task recorded in `_timeout_handler`, if any). -/
def Scope.cancel_timeout (s : Scope) : List Entry :=
  match s.timeout_handler with
  | some h => [h]
  | none => []

/-- `ExecutionScope._cancel_scope`: assert the state is `ENTERED`, cancel the
timeout, issue a cancel request to every task in
`chain(tasks_to_await.values(), awaited_tasks)`, and move to `CANCELLED`.
The returned list collects the issued cancel requests. -/
def Scope.cancel_scope (s : Scope) : Option PyExc × Scope × List Entry :=
  if s.state ≠ STATE.ENTERED then (some PyExc.IllegalStateError, s, [])
  else
    (none, { s with state := STATE.CANCELLED },
      s.cancel_timeout ++ s.tasks_to_await ++ s.awaited_tasks)

/-- Result of `ExecutionScope.exit` (and of `__aexit__`): the exception it
raises if any, the scope as it stands afterwards, how long the call
suspended, and the cancel requests it issued. -/
structure ExitResult where
  exc : Option PyExc
  scope : Scope
  elapsed : Nat
  cancelRequests : List Entry

/-- `ExecutionScope.exit`: assert the state is `ENTERED`; with nothing to
await, cancel the timeout and return at once (the source returns without
moving to `EXITED`); otherwise run the batch loop, then cancel the timeout
and move to `EXITED`.  An exception surfacing from a gather propagates
before the `EXITED` transition, leaving the fresh submissions queued and the
batch already recorded in `awaited_tasks`. -/
def Scope.exit (s : Scope) : ExitResult :=
  if s.state ≠ STATE.ENTERED then
    { exc := some PyExc.IllegalStateError, scope := s, elapsed := 0, cancelRequests := [] }
  else if s.tasks_to_await.isEmpty then
    { exc := none, scope := s, elapsed := 0, cancelRequests := s.cancel_timeout }
  else
    let r := joinAll s.used_as_context_manager s.return_exceptions
      s.tasks_to_await s.awaited_tasks 0 s.results
    let sj : Scope :=
      { s with
        tasks_to_await := r.pending
        awaited_tasks := r.awaited
        results := r.results }
    match r.exc with
    | some ex =>
      { exc := some ex, scope := sj, elapsed := r.elapsed, cancelRequests := [] }
    | none =>
      { exc := none, scope := { sj with state := STATE.EXITED },
        elapsed := r.elapsed, cancelRequests := s.cancel_timeout }

/-- `ExecutionScope.cancel`: assert the scope is used as a context manager
(`UsageError` otherwise), then raise `CancelledError`; it never returns
normally, so no code after a `cancel()` call runs. -/
def Scope.cancel (s : Scope) : Option PyExc × Scope :=
  if !s.used_as_context_manager then (some PyExc.UsageError, s)
  else (some PyExc.CancelledError, s)

/-- `ExecutionScope.__aexit__ (exc_type, exc, tb)`: with an exception from
the governed block, run `_cancel_scope`; without one, run `exit()` and, if
it raises `CancelledError`, run `_cancel_scope` and swallow.  The final
`return exc_type == asyncio.CancelledError` swallows exactly a
`CancelledError` escaping the block. -/
def Scope.aexit (s : Scope) (exc : Option PyExc) : ExitResult :=
  match exc with
  | some e =>
    match s.cancel_scope with
    | (some ae, s1, reqs) =>
      { exc := some ae, scope := s1, elapsed := 0, cancelRequests := reqs }
    | (none, s1, reqs) =>
      if e = PyExc.CancelledError then
        { exc := none, scope := s1, elapsed := 0, cancelRequests := reqs }
      else
        { exc := some e, scope := s1, elapsed := 0, cancelRequests := reqs }
  | none =>
    let r := s.exit
    match r.exc with
    | some PyExc.CancelledError =>
      match r.scope.cancel_scope with
      | (some ae, s2, reqs2) =>
        { exc := some ae, scope := s2, elapsed := r.elapsed,
          cancelRequests := r.cancelRequests ++ reqs2 }
      | (none, s2, reqs2) =>
        { exc := none, scope := s2, elapsed := r.elapsed,
          cancelRequests := r.cancelRequests ++ reqs2 }
    | some e =>
      { exc := some e, scope := r.scope, elapsed := r.elapsed,
        cancelRequests := r.cancelRequests }
    | none =>
      { exc := none, scope := r.scope, elapsed := r.elapsed,
        cancelRequests := r.cancelRequests }

/-- The `cancelled` property: `state.value >= STATE.CANCELLED.value`. -/
def Scope.cancelled (s : Scope) : Bool :=
  STATE.CANCELLED.value ≤ s.state.value

/-- Submit a list of work items one after the other (as a governed block
doing consecutive `asap` calls); the first failure propagates. -/
def submitAll (s : Scope) (ws : List Work) : Option PyExc × Scope :=
  match ws with
  | [] => (none, s)
  | w :: rest =>
    match s.asap (Entry.work w) with
    | (some e, s1) => (some e, s1)
    | (none, s1) => submitAll s1 rest

/-- An `async with ExecutionScope(timeout=timeout, return_exceptions=re)`
block that submits `ws` and then either falls off the end (`blockExc =
none`) or unwinds with an exception (for instance the `CancelledError`
raised by `cancel()`).  An exception raised by a submission itself unwinds
the block and reaches `__aexit__`. -/
def runScenario (timeout : Option Nat) (re : Bool) (ws : List Work)
    (blockExc : Option PyExc) : ExitResult :=
  let s0 : Scope := { timeout := timeout, return_exceptions := re }
  match s0.aenter with
  | (_, s1) =>
    match submitAll s1 ws with
    | (some e, s2) => s2.aexit (some e)
    | (none, s2) => s2.aexit blockExc

theorem sizeE_pos (e : Entry) : 1 ≤ sizeE e := by
  cases e with
  | timer s => simp [sizeE]
  | work w => exact sizeW_pos w

theorem sizeEL_append (a b : List Entry) : sizeEL (a ++ b) = sizeEL a + sizeEL b := by
  induction a with
  | nil => simp [sizeEL]
  | cons e es ih => simp [sizeEL, ih]; omega

theorem sizeEL_map_work (ws : List Work) : sizeEL (ws.map Entry.work) = sizeL ws := by
  induction ws with
  | nil => simp [sizeEL, sizeL]
  | cons w ws ih => simp [sizeEL, sizeL, sizeE, ih]

theorem batchSubs_size (t : Nat) (es : List Entry) :
    sizeEL (batchSubs t es) + es.length ≤ sizeEL es := by
  induction es with
  | nil => simp [batchSubs, sizeEL]
  | cons e es ih =>
    have hhead : sizeEL (if e.doneTime ≤ t then (e.subsOf).map Entry.work else []) + 1 ≤ sizeE e := by
      cases e with
      | timer s => simp [Entry.subsOf, sizeEL, sizeE]
      | work w =>
        cases w with
        | mk i d f subs =>
          split
          · simp [Entry.subsOf, Work.subs, sizeEL_map_work, sizeE, sizeW]; omega
          · simp [sizeEL, sizeE]; exact sizeW_pos _
    calc sizeEL (batchSubs t (e :: es)) + (e :: es).length
        = (sizeEL (if e.doneTime ≤ t then (e.subsOf).map Entry.work else []) + 1)
            + (sizeEL (batchSubs t es) + es.length) := by
          simp [batchSubs, List.flatMap_cons, sizeEL_append]; omega
      _ ≤ sizeE e + sizeEL es := Nat.add_le_add hhead ih
      _ = sizeEL (e :: es) := by simp [sizeEL]

theorem batchSubs_size_lt (t : Nat) (e : Entry) (es : List Entry) :
    sizeEL (batchSubs t (e :: es)) < sizeEL (e :: es) := by
  have h := batchSubs_size t (e :: es)
  simp only [List.length_cons] at h
  omega

theorem exitLoopF_congr (cm re : Bool) (f1 : Nat) :
    ∀ f2 tta awaited elapsed results, sizeEL tta < f1 → sizeEL tta < f2 →
      exitLoopF cm re f1 tta awaited elapsed results
        = exitLoopF cm re f2 tta awaited elapsed results := by
  induction f1 with
  | zero => intro f2 tta aw el rs h1 _; omega
  | succ g ih =>
    intro f2 tta aw el rs h1 h2
    cases tta with
    | nil => cases f2 with
      | zero => omega
      | succ g2 => simp [exitLoopF]
    | cons e rest =>
      cases f2 with
      | zero => omega
      | succ g2 =>
        simp only [exitLoopF]
        split
        · rfl
        · apply ih
          · have hlt := batchSubs_size_lt (gatherRun cm re (e :: rest)).time e rest
            omega
          · have hlt := batchSubs_size_lt (gatherRun cm re (e :: rest)).time e rest
            omega

theorem joinAll_nil (cm re : Bool) (awaited : List Entry) (elapsed : Nat)
    (results : List Outcome) :
    joinAll cm re [] awaited elapsed results
      = { pending := [], awaited := awaited, elapsed := elapsed,
          results := results, exc := none } := by
  simp [joinAll, sizeEL, exitLoopF]

/-- One iteration of the batch loop: snapshot the queue as a batch, add it to
the awaited set, gather it, and continue on the submissions that arrived
during the batch (or stop there when the gather surfaced an exception). -/
theorem joinAll_cons (cm re : Bool) (e : Entry) (rest awaited : List Entry)
    (elapsed : Nat) (results : List Outcome) :
    joinAll cm re (e :: rest) awaited elapsed results
      = (let tta := e :: rest
         let j := gatherRun cm re tta
         let fresh := batchSubs j.time tta
         match j.exc with
         | some ex =>
           { pending := fresh, awaited := awaited ++ tta, elapsed := elapsed + j.time,
             results := results, exc := some ex }
         | none => joinAll cm re fresh (awaited ++ tta) (elapsed + j.time)
             (results ++ j.outcomes)) := by
  show exitLoopF cm re (sizeEL (e :: rest) + 1) (e :: rest) awaited elapsed results = _
  simp only [exitLoopF]
  split
  · rfl
  · exact exitLoopF_congr cm re (sizeEL (e :: rest)) _ _ _ _ _
      (batchSubs_size_lt _ e rest) (Nat.lt_succ_self _)

theorem pickRaise_none (acc : Option (Nat × PyExc)) : pickRaise acc none = acc := by
  cases acc <;> rfl

theorem raiseOf_clean (cm : Bool) (w : Work) (h : w.fault = false) :
    Entry.raiseOf cm (Entry.work w) = none := by
  simp [Entry.raiseOf, h]

theorem firstRaise_go_clean (cm : Bool) (ws : List Work) (acc : Option (Nat × PyExc))
    (h : ∀ w ∈ ws, w.fault = false) :
    (ws.map Entry.work).foldl (fun acc e => pickRaise acc (Entry.raiseOf cm e)) acc = acc := by
  induction ws generalizing acc with
  | nil => rfl
  | cons w ws ih =>
    simp only [List.map_cons, List.foldl_cons]
    rw [raiseOf_clean cm w (h w (by simp)), pickRaise_none]
    exact ih acc fun w' hw' => h w' (by simp [hw'])

theorem firstRaise_clean (cm : Bool) (ws : List Work) (h : ∀ w ∈ ws, w.fault = false) :
    firstRaise cm (ws.map Entry.work) = none :=
  firstRaise_go_clean cm ws none h

theorem firstRaise_timer_clean (cm : Bool) (T : Nat) (ws : List Work)
    (h : ∀ w ∈ ws, w.fault = false) :
    firstRaise cm (Entry.timer T :: ws.map Entry.work)
      = some (T, if cm then PyExc.CancelledError else PyExc.UsageError) := by
  unfold firstRaise
  simp only [List.foldl_cons]
  exact firstRaise_go_clean cm ws _ h

theorem doneTime_le_maxDone (es : List Entry) (e : Entry) (h : e ∈ es) :
    e.doneTime ≤ maxDone es := by
  induction es with
  | nil => cases h
  | cons a es ih =>
    rcases List.mem_cons.mp h with h | h
    · subst h; exact Nat.le_max_left _ _
    · exact Nat.le_trans (ih h) (Nat.le_max_right _ _)

theorem batchSubs_of_all_done (t : Nat) (es : List Entry) (h : ∀ e ∈ es, e.doneTime ≤ t) :
    batchSubs t es = es.flatMap fun e => (e.subsOf).map Entry.work := by
  induction es with
  | nil => rfl
  | cons e es ih =>
    simp only [batchSubs, List.flatMap_cons] at ih ⊢
    rw [if_pos (h e (by simp)), ih fun a ha => h a (by simp [ha])]

theorem batchSubs_maxDone (es : List Entry) :
    batchSubs (maxDone es) es = es.flatMap fun e => (e.subsOf).map Entry.work :=
  batchSubs_of_all_done _ es fun e he => doneTime_le_maxDone es e he

theorem flatMap_subs_map_work (ws : List Work) :
    ((ws.map Entry.work).flatMap fun e => (e.subsOf).map Entry.work)
      = (ws.flatMap Work.subs).map Entry.work := by
  induction ws with
  | nil => rfl
  | cons w ws ih =>
    simp only [List.map_cons, List.flatMap_cons]
    rw [ih]
    simp [Entry.subsOf, List.map_append]

theorem outcomes_clean (ws : List Work) (h : ∀ w ∈ ws, w.fault = false) :
    (ws.map Entry.work).map Entry.outcomeOf = ws.map fun w => Outcome.ok w.id := by
  induction ws with
  | nil => rfl
  | cons w ws ih =>
    simp only [List.map_cons, List.map_map] at ih ⊢
    rw [show Entry.outcomeOf (Entry.work w) = Outcome.ok w.id by
          simp [Entry.outcomeOf, h w (by simp)]]
    rw [ih fun w' hw' => h w' (by simp [hw'])]

/-- A gather over a batch of nonfaulting user tasks (no timer) completes,
at the last task's terminal time, with the tasks' outcomes in batch order,
whatever `return_exceptions` says. -/
theorem gatherRun_clean (cm re : Bool) (ws : List Work) (h : ∀ w ∈ ws, w.fault = false) :
    gatherRun cm re (ws.map Entry.work)
      = { time := maxDone (ws.map Entry.work), exc := none,
          outcomes := ws.map fun w => Outcome.ok w.id } := by
  unfold gatherRun
  rw [firstRaise_clean cm ws h, outcomes_clean ws h]
  split <;> rfl

theorem submitAll_ok (ws : List Work) : ∀ s : Scope,
    (∀ w ∈ ws, s.tasks_to_await.any (dupOf (Entry.work w)) = false) →
    (ws.map Work.id).Nodup →
    submitAll s ws
      = (none, { s with tasks_to_await := s.tasks_to_await ++ ws.map Entry.work }) := by
  induction ws with
  | nil =>
    intro s h hn
    simp [submitAll]
  | cons w ws ih =>
    intro s h hn
    have hdup : s.tasks_to_await.any (dupOf (Entry.work w)) = false := h w (by simp)
    simp only [submitAll, Scope.asap, hdup, Bool.false_eq_true, if_false]
    have hn2 : (∀ x ∈ ws, ¬x.id = w.id) ∧ (ws.map Work.id).Nodup := by simpa using hn
    have hrest : ∀ w' ∈ ws,
        (s.tasks_to_await ++ [Entry.work w]).any (dupOf (Entry.work w')) = false := by
      intro w' hw'
      rw [List.any_append]
      have h1 : s.tasks_to_await.any (dupOf (Entry.work w')) = false := h w' (by simp [hw'])
      simp [h1, dupOf, hn2.1 w' hw']
    have hn' : (ws.map Work.id).Nodup := hn2.2
    rw [ih _ hrest hn']
    simp [List.append_assoc]

/-- Generation-wise listing of the outcomes of a forest of nonfaulting work
items: first the outcomes of the submitted items, in submission order, then
(recursively) the outcomes of everything those items submit.  This is the
result sequence the batch loop is expected to produce on a clean drain. -/
def gensF : Nat → List Work → List Outcome
  | _, [] => []
  | 0, _ :: _ => []
  | fuel + 1, w :: rest =>
    ((w :: rest).map fun v => Outcome.ok v.id)
      ++ gensF fuel ((w :: rest).flatMap Work.subs)

/-- `gensF`, fuelled adequately. -/
def gens (ws : List Work) : List Outcome := gensF (sizeL ws + 1) ws

theorem sizeL_flatMap_lt (w : Work) (ws : List Work) :
    sizeL ((w :: ws).flatMap Work.subs) < sizeL (w :: ws) := by
  have h := sizeL_flatMap_subs (w :: ws)
  simp only [List.length_cons] at h
  omega

theorem gensF_congr (f1 : Nat) : ∀ f2 ws, sizeL ws < f1 → sizeL ws < f2 →
    gensF f1 ws = gensF f2 ws := by
  induction f1 with
  | zero => intro f2 ws h1 _; omega
  | succ g ih =>
    intro f2 ws h1 h2
    cases ws with
    | nil => cases f2 with
      | zero => omega
      | succ g2 => rfl
    | cons w rest =>
      cases f2 with
      | zero => omega
      | succ g2 =>
        simp only [gensF]
        rw [ih g2 _ (by have := sizeL_flatMap_lt w rest; omega)
          (by have := sizeL_flatMap_lt w rest; omega)]

theorem gens_nil : gens [] = [] := rfl

theorem gens_cons (w : Work) (rest : List Work) :
    gens (w :: rest)
      = ((w :: rest).map fun v => Outcome.ok v.id)
          ++ gens ((w :: rest).flatMap Work.subs) := by
  show gensF (sizeL (w :: rest) + 1) (w :: rest) = _
  simp only [gensF]
  rw [gensF_congr (sizeL (w :: rest)) _ _ (sizeL_flatMap_lt w rest)
    (Nat.lt_succ_self _)]
  rfl

/-- A work item none of whose transitive submissions (itself included)
faults. -/
inductive CleanW : Work → Prop where
  | intro : ∀ (i d : Nat) (subs : List Work),
      (∀ w ∈ subs, CleanW w) → CleanW (Work.mk i d false subs)

theorem CleanW.fault_false {w : Work} (h : CleanW w) : w.fault = false := by
  cases h; rfl

theorem CleanW.subs_clean {w : Work} (h : CleanW w) : ∀ v ∈ w.subs, CleanW v := by
  cases h with
  | intro i d subs hs => simpa [Work.subs] using hs

theorem clean_flatMap {ws : List Work} (h : ∀ w ∈ ws, CleanW w) :
    ∀ v ∈ ws.flatMap Work.subs, CleanW v := by
  intro v hv
  rcases List.mem_flatMap.mp hv with ⟨w, hw, hv2⟩
  exact (h w hw).subs_clean v hv2

/-- One clean iteration of the batch loop: the whole queue is joined as one
batch, its outcomes land in the results, and the loop continues on exactly
the items the batch itself submitted. -/
theorem joinAll_clean_step (cm re : Bool) (w : Work) (rest : List Work)
    (aw : List Entry) (el : Nat) (rs : List Outcome)
    (hfaults : ∀ v ∈ w :: rest, v.fault = false) :
    joinAll cm re ((w :: rest).map Entry.work) aw el rs
      = joinAll cm re (((w :: rest).flatMap Work.subs).map Entry.work)
          (aw ++ (w :: rest).map Entry.work)
          (el + maxDone ((w :: rest).map Entry.work))
          (rs ++ ((w :: rest).map fun v => Outcome.ok v.id)) := by
  have hg := gatherRun_clean cm re (w :: rest) hfaults
  rw [List.map_cons] at hg ⊢
  rw [joinAll_cons]
  simp only [hg, batchSubs_maxDone]
  rw [show (Entry.work w :: rest.map Entry.work) = (w :: rest).map Entry.work from rfl,
    flatMap_subs_map_work]

/-- Draining a clean forest: the batch loop finishes with no exception and
no task left queued, and appends the outcomes generation by generation. -/
theorem joinAll_clean_forest (cm re : Bool) (n : Nat) :
    ∀ ws aw el rs, sizeL ws ≤ n → (∀ w ∈ ws, CleanW w) →
      (joinAll cm re (ws.map Entry.work) aw el rs).results = rs ++ gens ws
        ∧ (joinAll cm re (ws.map Entry.work) aw el rs).exc = none
        ∧ (joinAll cm re (ws.map Entry.work) aw el rs).pending = [] := by
  induction n with
  | zero =>
    intro ws aw el rs hsize hclean
    cases ws with
    | nil => simp [joinAll_nil, gens_nil]
    | cons w rest =>
      exfalso
      have := sizeW_pos w
      simp [sizeL] at hsize
      omega
  | succ n ih =>
    intro ws aw el rs hsize hclean
    cases ws with
    | nil => simp [joinAll_nil, gens_nil]
    | cons w rest =>
      have hfaults : ∀ v ∈ w :: rest, v.fault = false :=
        fun v hv => (hclean v hv).fault_false
      rw [joinAll_clean_step cm re w rest aw el rs hfaults]
      have hsize2 : sizeL ((w :: rest).flatMap Work.subs) ≤ n := by
        have := sizeL_flatMap_lt w rest
        omega
      have hclean2 := clean_flatMap hclean
      rcases ih ((w :: rest).flatMap Work.subs) _ _ _ hsize2 hclean2 with ⟨h1, h2, h3⟩
      refine ⟨?_, h2, h3⟩
      rw [h1, gens_cons, List.append_assoc]

/-- Modelled from the spec: the admission controller of S4.2.  The
`max_concurrency` configuration is exercised by the repository's tests
(`ayo.scope(max_concurrency=2)`) but the version of `ExecutionScope` under
`src/` accepts no such parameter and never defers a submission, so the
controller is modelled from the spec's words: a submission is handed to the
runtime immediately while fewer than `limit` items are Active, and is
otherwise appended to a FIFO `deferred_queue`; each completion of an Active
item activates the head of that queue.  Items are numbered by submission
order (`nextId`); `startOrder` records the order in which items were handed
to the runtime. -/
structure Admission where
  limit : Option Nat
  active : Nat
  deferredQ : List Nat
  startOrder : List Nat
  nextId : Nat
  deriving DecidableEq, Repr

/-- The two events the admission controller reacts to: a `submit(work)`
call, and the completion (success, failure or cancellation) of one Active
item. -/
inductive AdmEvent where
  | submit
  | complete
  deriving DecidableEq, Repr

/-- Modelled from the spec, S4.2: one step of the admission controller. -/
def Admission.step (s : Admission) : AdmEvent → Admission
  | .submit =>
    let i := s.nextId
    match s.limit with
    | some k =>
      if s.active < k then
        { s with active := s.active + 1, startOrder := s.startOrder ++ [i], nextId := i + 1 }
      else
        { s with deferredQ := s.deferredQ ++ [i], nextId := i + 1 }
    | none =>
      { s with active := s.active + 1, startOrder := s.startOrder ++ [i], nextId := i + 1 }
  | .complete =>
    if s.active = 0 then s
    else
      match s.deferredQ with
      | [] => { s with active := s.active - 1 }
      | h :: t =>
        { s with active := s.active - 1 + 1, deferredQ := t, startOrder := s.startOrder ++ [h] }

/-- A freshly constructed scope's admission state. -/
def Admission.init (k : Option Nat) : Admission :=
  { limit := k, active := 0, deferredQ := [], startOrder := [], nextId := 0 }

/-- The admission state after a sequence of submissions and completions. -/
def Admission.run (k : Option Nat) (evs : List AdmEvent) : Admission :=
  evs.foldl Admission.step (Admission.init k)

/-- Invariant of the admission controller: items are activated in submission
order (the started items are exactly `0, 1, ..., m-1` in that order); the
deferred queue holds exactly the remaining submitted items, in submission
order; and when a limit is configured, the Active count never exceeds it and
is pinned at the limit while anything is deferred. -/
def AdmInv (s : Admission) : Prop :=
  ∃ m d, s.startOrder = List.range m
    ∧ s.deferredQ = List.range' m d
    ∧ s.nextId = m + d
    ∧ (∀ k, s.limit = some k → s.active ≤ k ∧ (0 < d → s.active = k))
    ∧ (s.limit = none → d = 0)

theorem admInv_init (k : Option Nat) : AdmInv (Admission.init k) := by
  refine ⟨0, 0, rfl, rfl, rfl, ?_, fun _ => rfl⟩
  intro k2 hk
  exact ⟨Nat.zero_le _, fun h => absurd h (by omega)⟩

theorem admInv_step (s : Admission) (ev : AdmEvent) (h : AdmInv s) :
    AdmInv (s.step ev) := by
  obtain ⟨lim, act, dq, so, ni⟩ := s
  obtain ⟨m, d, h1, h2, h3, h4, h5⟩ := h
  simp only at h1 h2 h3 h4 h5
  subst h1 h2 h3
  cases ev with
  | submit =>
    cases lim with
    | none =>
      have hd : d = 0 := h5 rfl
      subst hd
      simp only [Admission.step]
      dsimp only [AdmInv]
      refine ⟨m + 1, 0, ?_, rfl, by omega, ?_, fun _ => rfl⟩
      · simp [List.range_succ]
      · intro k hk; cases hk
    | some k =>
      by_cases hak : act < k
      · have hd : d = 0 := by
          by_contra hne
          have := (h4 k rfl).2 (by omega)
          omega
        subst hd
        simp only [Admission.step, if_pos hak]
        dsimp only [AdmInv]
        refine ⟨m + 1, 0, ?_, rfl, by omega, ?_, fun hn => by cases hn⟩
        · simp [List.range_succ]
        · intro k2 hk2
          cases hk2
          exact ⟨by omega, fun hd2 => by omega⟩
      · simp only [Admission.step, if_neg hak]
        dsimp only [AdmInv]
        refine ⟨m, d + 1, rfl, ?_, by omega, ?_, fun hn => by cases hn⟩
        · rw [List.range'_concat]
          simp
        · intro k2 hk2
          cases hk2
          have hle := (h4 k rfl).1
          exact ⟨hle, fun _ => by omega⟩
  | complete =>
    by_cases ha0 : act = 0
    · simp only [Admission.step, if_pos ha0]
      dsimp only [AdmInv]
      exact ⟨m, d, rfl, rfl, rfl, h4, h5⟩
    · cases d with
      | zero =>
        simp only [Admission.step, if_neg ha0, List.range']
        dsimp only [AdmInv]
        refine ⟨m, 0, rfl, rfl, rfl, ?_, fun _ => rfl⟩
        intro k hk
        have hle := (h4 k hk).1
        exact ⟨by omega, fun hd2 => by omega⟩
      | succ d2 =>
        simp only [Admission.step, if_neg ha0, List.range'_succ]
        dsimp only [AdmInv]
        refine ⟨m + 1, d2, ?_, rfl, by omega, ?_, ?_⟩
        · simp [List.range_succ]
        · intro k hk
          have hka := (h4 k hk).2 (by omega)
          exact ⟨by omega, fun _ => by omega⟩
        · intro hn
          exact absurd (h5 hn) (by omega)

theorem admInv_run (k : Option Nat) (evs : List AdmEvent) : AdmInv (Admission.run k evs) := by
  suffices hgen : ∀ s : Admission, AdmInv s → AdmInv (evs.foldl Admission.step s) from
    hgen (Admission.init k) (admInv_init k)
  induction evs with
  | nil => intro s hs; exact hs
  | cons ev evs ih =>
    intro s hs
    exact ih (s.step ev) (admInv_step s ev hs)

/-- Model of the asyncio collaborator's cooperative cancellation: the
terminal state a handle settles into after the scope issued it a cancel
request — already-terminal handles keep their completed outcome (a cancel
request on them is an idempotent no-op), every other handle ends cancelled
at its next suspension point. -/
inductive Fate where
  | completed
  | cancelledFate
  | stillRunning
  deriving DecidableEq, Repr

/-- Terminal state of a handle after scope closure, given whether it
received a cancel request and whether it was already terminal. -/
def fateAfterClose (gotCancelRequest wasTerminal : Bool) : Fate :=
  if wasTerminal then Fate.completed
  else if gotCancelRequest then Fate.cancelledFate
  else Fate.stillRunning

/-- C1, the claim as stated, is false on the code: with `timeout = 2` and a
single submitted item of duration `1 < 2`, closing the scope does not
complete normally — `exit()` cancels the timer only after the join loop, the
timer task sits in the joined batch, the gather waits the full 2 time units
until the timer raises the scope's own cancellation, and the scope ends
`CANCELLED` with no results retained (though no fault escapes). -/
theorem C1_counterexample_timer_joins :
    (runScenario (some 2) false [Work.mk 0 1 false []] none).scope.state = STATE.CANCELLED
      ∧ (runScenario (some 2) false [Work.mk 0 1 false []] none).scope.state ≠ STATE.EXITED
      ∧ (runScenario (some 2) false [Work.mk 0 1 false []] none).elapsed = 2
      ∧ (runScenario (some 2) false [Work.mk 0 1 false []] none).exc = none
      ∧ (runScenario (some 2) false [Work.mk 0 1 false []] none).scope.results = [] := by
  refine ⟨rfl, by decide, rfl, rfl, rfl⟩

/-- C1 (amended): for every scope entered as a context manager with timeout
`T > 0` (and `return_exceptions` at its default), if every submitted item is
nonfaulting with duration `< T`, then closing the scope does NOT cancel the
TimeoutTimer before the join: the timer is itself part of the join set, so
the closing join waits exactly the full duration `T`, at which point the
timer fires the scope's own cancellation signal; `__aexit__` swallows it and
cascades, so no fault reaches the caller but the scope ends in state
`CANCELLED` with no results retained. -/
theorem C1_amended_timeout_waits_full_duration (T : Nat) (ws : List Work)
    (hT : 0 < T)
    (hfast : ∀ w ∈ ws, w.duration < T ∧ w.fault = false)
    (hids : (ws.map Work.id).Nodup) :
    (runScenario (some T) false ws none).exc = none
      ∧ (runScenario (some T) false ws none).scope.state = STATE.CANCELLED
      ∧ (runScenario (some T) false ws none).elapsed = T
      ∧ (runScenario (some T) false ws none).scope.results = [] := by
  have hT0 : T ≠ 0 := by omega
  have hfaults : ∀ w ∈ ws, w.fault = false := fun w hw => (hfast w hw).2
  have hdups : ∀ w ∈ ws, ([Entry.timer T] : List Entry).any (dupOf (Entry.work w)) = false := by
    intro w hw
    simp [dupOf]
  have henter : ({ timeout := some T, return_exceptions := false } : Scope).aenter
      = (none, { timeout := some T, return_exceptions := false,
                 tasks_to_await := [Entry.timer T], awaited_tasks := [], results := [],
                 state := STATE.ENTERED, used_as_context_manager := true,
                 timeout_handler := some (Entry.timer T) }) := by
    simp [Scope.aenter, Scope.enter, Scope.asap, dupOf, hT0]
  have hsub := submitAll_ok ws
    { timeout := some T, return_exceptions := false,
      tasks_to_await := [Entry.timer T], awaited_tasks := [], results := [],
      state := STATE.ENTERED, used_as_context_manager := true,
      timeout_handler := some (Entry.timer T) } hdups hids
  have hjoin : joinAll true false (Entry.timer T :: ws.map Entry.work) [] 0 []
      = { pending := batchSubs T (Entry.timer T :: ws.map Entry.work),
          awaited := Entry.timer T :: ws.map Entry.work, elapsed := T,
          results := [], exc := some PyExc.CancelledError } := by
    rw [joinAll_cons]
    simp [gatherRun, firstRaise_timer_clean true T ws hfaults]
  simp only [runScenario, henter, hsub]
  simp [Scope.aexit, Scope.exit, Scope.cancel_scope, Scope.cancel_timeout,
    List.singleton_append, hjoin]

/-- Witness: C1's amended theorem at timeout 2 with one item of duration 1. -/
theorem C1_amended_witness :
    (runScenario (some 2) false [Work.mk 5 1 false []] none).exc = none
      ∧ (runScenario (some 2) false [Work.mk 5 1 false []] none).scope.state = STATE.CANCELLED
      ∧ (runScenario (some 2) false [Work.mk 5 1 false []] none).elapsed = 2
      ∧ (runScenario (some 2) false [Work.mk 5 1 false []] none).scope.results = [] :=
  C1_amended_timeout_waits_full_duration 2 [Work.mk 5 1 false []] (by decide)
    (by intro w hw
        rcases List.mem_singleton.mp hw with rfl
        exact ⟨by decide, rfl⟩)
    (by simp)

theorem flatMap_subs_nil {ws : List Work} (h : ∀ w ∈ ws, w.subs = []) :
    ws.flatMap Work.subs = [] := by
  induction ws with
  | nil => rfl
  | cons w rest ih =>
    simp only [List.flatMap_cons, h w (by simp), ih fun v hv => h v (by simp [hv]),
      List.nil_append]

theorem gens_flat {ws : List Work} (h : ∀ w ∈ ws, w.subs = []) :
    gens ws = ws.map fun w => Outcome.ok w.id := by
  cases ws with
  | nil => rfl
  | cons w rest => rw [gens_cons, flatMap_subs_nil h, gens_nil, List.append_nil]

/-- C2: submitting N nonfaulting items (that submit nothing further) to a
scope with no concurrency limit and closing it cleanly yields exactly N
outcomes, ordered by submission order within the batch (not by completion
order: the durations are arbitrary), readable from the scope's result
sequence after closure; no fault escapes.  The result sequence itself is
modelled from the spec (its collection is a TODO in the source `exit`); its
order is the code's `gather` argument order, which is the insertion order of
the `tasks_to_await` dict. -/
theorem C2_results_order_preserving (ws : List Work)
    (hflat : ∀ w ∈ ws, w.fault = false ∧ w.subs = [])
    (hids : (ws.map Work.id).Nodup) :
    (runScenario none false ws none).exc = none
      ∧ (runScenario none false ws none).scope.results = (ws.map fun w => Outcome.ok w.id)
      ∧ (runScenario none false ws none).scope.results.length = ws.length := by
  cases ws with
  | nil => refine ⟨rfl, rfl, rfl⟩
  | cons w rest =>
    have hclean : ∀ v ∈ w :: rest, CleanW v := by
      intro v hv
      rcases v with ⟨i, d, f, subs⟩
      have h1 := (hflat _ hv).1
      have h2 := (hflat _ hv).2
      simp only [Work.fault] at h1
      simp only [Work.subs] at h2
      subst h1
      subst h2
      exact CleanW.intro i d [] (by intro v2 hv2; cases hv2)
    have hdups : ∀ v ∈ w :: rest, ([] : List Entry).any (dupOf (Entry.work v)) = false := by
      intro v hv; rfl
    have henter : ({ timeout := none, return_exceptions := false } : Scope).aenter
        = (none, { state := STATE.ENTERED, used_as_context_manager := true }) := by
      simp [Scope.aenter, Scope.enter]
    have hsub := submitAll_ok (w :: rest)
      { state := STATE.ENTERED, used_as_context_manager := true } hdups hids
    rcases joinAll_clean_forest true false (sizeL (w :: rest)) (w :: rest) [] 0 []
      (Nat.le_refl _) hclean with ⟨hr, he, hp⟩
    rw [List.nil_append] at hr
    simp only [List.map_cons] at hr he hp
    simp only [runScenario, henter, hsub]
    simp [Scope.aexit, Scope.exit, Scope.cancel_timeout, hr, he, hp,
      gens_flat fun v hv => (hflat v hv).2]

/-- Witness: C2 at three items whose durations are not in submission
order (completion order 1, 2, 0), with results still in submission order. -/
theorem C2_witness :
    (runScenario none false [Work.mk 0 3 false [], Work.mk 1 1 false [], Work.mk 2 2 false []]
        none).exc = none
      ∧ (runScenario none false [Work.mk 0 3 false [], Work.mk 1 1 false [], Work.mk 2 2 false []]
          none).scope.results = [Outcome.ok 0, Outcome.ok 1, Outcome.ok 2]
      ∧ (runScenario none false [Work.mk 0 3 false [], Work.mk 1 1 false [], Work.mk 2 2 false []]
          none).scope.results.length = 3 :=
  C2_results_order_preserving [Work.mk 0 3 false [], Work.mk 1 1 false [], Work.mk 2 2 false []]
    (by intro w hw
        rcases List.mem_cons.mp hw with rfl | hw2
        · exact ⟨rfl, rfl⟩
        rcases List.mem_cons.mp hw2 with rfl | hw3
        · exact ⟨rfl, rfl⟩
        rcases List.mem_singleton.mp hw3 with rfl
        exact ⟨rfl, rfl⟩)
    (by decide)

theorem admStep_limit (s : Admission) (ev : AdmEvent) : (s.step ev).limit = s.limit := by
  obtain ⟨lim, act, dq, so, ni⟩ := s
  cases ev with
  | submit =>
    cases lim with
    | none => rfl
    | some k =>
      by_cases hak : act < k
      · simp [Admission.step, hak]
      · simp [Admission.step, hak]
  | complete =>
    by_cases ha0 : act = 0
    · simp [Admission.step, ha0]
    · cases dq <;> simp [Admission.step, ha0]

theorem admRun_limit (k : Option Nat) (evs : List AdmEvent) :
    (Admission.run k evs).limit = k := by
  suffices hgen : ∀ s : Admission, (evs.foldl Admission.step s).limit = s.limit from
    hgen (Admission.init k)
  induction evs with
  | nil => intro s; rfl
  | cons ev evs ih => intro s; rw [List.foldl_cons, ih, admStep_limit]

theorem admSubmit_at_capacity (s : Admission) (k : Nat) (hl : s.limit = some k)
    (hk : s.active = k) : (s.step AdmEvent.submit).startOrder = s.startOrder := by
  simp [Admission.step, hl, hk]

/-- C3 (spec-modelled: `max_concurrency` is absent from the `ExecutionScope`
under `src/`, though the tests pass it; the admission controller is modelled
from the spec, S4.2): after any sequence of submissions and completions on a
scope constructed with `max_concurrency = k`, at most `k` items are Active;
items are handed to the runtime strictly in submission order (the start
order is always `0, 1, ..., m-1`); and a submission arriving while `k` items
are Active starts nothing — the new item is deferred until a completion
activates it. -/
theorem C3_admission_bounded_fifo (k : Nat) (evs : List AdmEvent) :
    (Admission.run (some k) evs).active ≤ k
      ∧ (Admission.run (some k) evs).startOrder
          = List.range (Admission.run (some k) evs).startOrder.length
      ∧ ((Admission.run (some k) evs).active = k →
          ((Admission.run (some k) evs).step AdmEvent.submit).startOrder
            = (Admission.run (some k) evs).startOrder) := by
  obtain ⟨m, d, h1, h2, h3, h4, h5⟩ := admInv_run (some k) evs
  refine ⟨(h4 k (admRun_limit (some k) evs)).1, ?_, ?_⟩
  · rw [h1, List.length_range]
  · intro hk
    exact admSubmit_at_capacity _ k (admRun_limit (some k) evs) hk

/-- Witness: C3 with limit 1 after submit, submit, complete — the second
item was deferred and has been activated by the completion, FIFO. -/
theorem C3_witness :
    (Admission.run (some 1) [AdmEvent.submit, AdmEvent.submit, AdmEvent.complete]).active ≤ 1
      ∧ (Admission.run (some 1) [AdmEvent.submit, AdmEvent.submit, AdmEvent.complete]).startOrder
          = [0, 1]
      ∧ ((Admission.run (some 1)
            [AdmEvent.submit, AdmEvent.submit, AdmEvent.complete]).step
              AdmEvent.submit).startOrder
          = (Admission.run (some 1) [AdmEvent.submit, AdmEvent.submit, AdmEvent.complete]).startOrder := by
  have h := C3_admission_bounded_fifo 1 [AdmEvent.submit, AdmEvent.submit, AdmEvent.complete]
  exact ⟨h.1, by decide, h.2.2 (by decide)⟩

/-- C4: calling `cancel()` inside the governed block of a context-managed,
entered scope (a) raises the cancellation signal so nothing after the call
runs, (b) escapes no fault to the block's caller (the `CancelledError` is
swallowed by `__aexit__`), (c) leaves `cancelled` true, and (d) issues a
cancel request to every item submitted before the cancel (queued or already
joined), so each such item ends cancelled or keeps its already-completed
terminal state. -/
theorem C4_cancel_inside_block (s : Scope)
    (hcm : s.used_as_context_manager = true)
    (hst : s.state = STATE.ENTERED) :
    s.cancel = (some PyExc.CancelledError, s)
      ∧ (s.aexit (some PyExc.CancelledError)).exc = none
      ∧ (s.aexit (some PyExc.CancelledError)).scope.cancelled = true
      ∧ (∀ e ∈ s.tasks_to_await ++ s.awaited_tasks,
          e ∈ (s.aexit (some PyExc.CancelledError)).cancelRequests)
      ∧ (∀ b : Bool, fateAfterClose true b = Fate.completed
          ∨ fateAfterClose true b = Fate.cancelledFate) := by
  have hcs : s.cancel_scope = (none, { s with state := STATE.CANCELLED },
      s.cancel_timeout ++ s.tasks_to_await ++ s.awaited_tasks) := by
    simp [Scope.cancel_scope, hst]
  refine ⟨?_, ?_, ?_, ?_, ?_⟩
  · simp [Scope.cancel, hcm]
  · simp [Scope.aexit, hcs]
  · simp [Scope.aexit, hcs, Scope.cancelled, STATE.value]
  · intro e he
    simp [Scope.aexit, hcs, List.mem_append]
    simp only [List.mem_append] at he
    tauto
  · intro b
    cases b <;> simp [fateAfterClose]

def c4scope : Scope :=
  { tasks_to_await := [Entry.work (Work.mk 0 4 false [])],
    awaited_tasks := [Entry.work (Work.mk 1 1 false [])],
    state := STATE.ENTERED, used_as_context_manager := true }

/-- Witness: C4 on a scope with one queued and one already-joined item. -/
theorem C4_witness :
    c4scope.cancel = (some PyExc.CancelledError, c4scope)
      ∧ (c4scope.aexit (some PyExc.CancelledError)).exc = none
      ∧ (c4scope.aexit (some PyExc.CancelledError)).scope.cancelled = true
      ∧ Entry.work (Work.mk 0 4 false [])
          ∈ (c4scope.aexit (some PyExc.CancelledError)).cancelRequests :=
  have h := C4_cancel_inside_block c4scope rfl rfl
  ⟨h.1, h.2.1, h.2.2.1, h.2.2.2.1 _ (by simp [c4scope])⟩

/-- C5: the closing join of `exit()` runs as a loop that snapshots the
queued items as one batch, clears the queue before suspending, joins the
batch, and repeats on whatever the batch's own items submitted, terminating
exactly when a batch completes with nothing newly queued: on a forest of
nonfaulting items, `exit()` raises nothing, leaves nothing queued, and its
results list every transitively submitted item, generation by generation. -/
theorem C5_join_loop_drains_resubmissions (s : Scope) (ws : List Work)
    (hst : s.state = STATE.ENTERED)
    (htta : s.tasks_to_await = ws.map Entry.work)
    (hclean : ∀ w ∈ ws, CleanW w) :
    (s.exit).exc = none
      ∧ (s.exit).scope.results = s.results ++ gens ws
      ∧ (s.exit).scope.tasks_to_await = [] := by
  cases ws with
  | nil => simp [Scope.exit, hst, htta, gens_nil]
  | cons w rest =>
    rcases joinAll_clean_forest s.used_as_context_manager s.return_exceptions
      (sizeL (w :: rest)) (w :: rest) s.awaited_tasks 0 s.results (Nat.le_refl _) hclean
      with ⟨hr, he, hp⟩
    simp only [List.map_cons] at hr he hp
    simp [Scope.exit, hst, htta, hr, he, hp]

def c5works : List Work := [Work.mk 0 2 false [Work.mk 1 1 false []]]

def c5scope : Scope := { tasks_to_await := c5works.map Entry.work, state := STATE.ENTERED }

/-- Witness: C5 on one item that itself submits a second item mid-join; the
second item's outcome is drained into the results as a second batch. -/
theorem C5_witness :
    (c5scope.exit).exc = none
      ∧ (c5scope.exit).scope.results = [Outcome.ok 0, Outcome.ok 1]
      ∧ (c5scope.exit).scope.tasks_to_await = [] := by
  have h := C5_join_loop_drains_resubmissions c5scope c5works rfl rfl
    (by intro w hw
        rcases List.mem_singleton.mp hw with rfl
        exact CleanW.intro 0 2 [Work.mk 1 1 false []]
          (by intro v hv
              rcases List.mem_singleton.mp hv with rfl
              exact CleanW.intro 1 1 [] (by intro u hu; cases hu)))
  refine ⟨h.1, ?_, h.2.2⟩
  rw [h.2.1]
  rfl

/-- C6: when a fault other than the scope's own cancellation signal escapes
the governed block, the scope never runs the clean-join path (nothing is
awaited: zero time passes and the results are untouched); it cascades a
cancel request to every queued handle and every handle of the previously
joined batches (reach-back), transitions to `CANCELLED`, and re-raises the
external fault unchanged to the caller. -/
theorem C6_external_fault_cascades (s : Scope) (e : PyExc)
    (hne : e ≠ PyExc.CancelledError)
    (hst : s.state = STATE.ENTERED) :
    (s.aexit (some e)).exc = some e
      ∧ (s.aexit (some e)).scope.state = STATE.CANCELLED
      ∧ (s.aexit (some e)).cancelRequests
          = s.cancel_timeout ++ s.tasks_to_await ++ s.awaited_tasks
      ∧ (s.aexit (some e)).elapsed = 0
      ∧ (s.aexit (some e)).scope.results = s.results := by
  have hcs : s.cancel_scope = (none, { s with state := STATE.CANCELLED },
      s.cancel_timeout ++ s.tasks_to_await ++ s.awaited_tasks) := by
    simp [Scope.cancel_scope, hst]
  simp [Scope.aexit, hcs, hne]

def c6scope : Scope :=
  { tasks_to_await := [Entry.work (Work.mk 2 3 false [])],
    awaited_tasks := [Entry.work (Work.mk 8 1 false [])],
    results := [Outcome.ok 8],
    state := STATE.ENTERED, used_as_context_manager := true }

/-- Witness: C6 with a user fault escaping a block holding one queued and
one already-joined handle. -/
theorem C6_witness :
    (c6scope.aexit (some (PyExc.Fault 7))).exc = some (PyExc.Fault 7)
      ∧ (c6scope.aexit (some (PyExc.Fault 7))).scope.state = STATE.CANCELLED
      ∧ (c6scope.aexit (some (PyExc.Fault 7))).cancelRequests
          = c6scope.cancel_timeout ++ c6scope.tasks_to_await ++ c6scope.awaited_tasks
      ∧ (c6scope.aexit (some (PyExc.Fault 7))).elapsed = 0
      ∧ (c6scope.aexit (some (PyExc.Fault 7))).scope.results = c6scope.results :=
  C6_external_fault_cascades c6scope (PyExc.Fault 7) (by decide) rfl

def c7scope : Scope := { state := STATE.ENTERED, used_as_context_manager := true }

/-- C7: evidence of the code bug.  The first half of the claim holds — from
a non-`ENTERED` state (here the fresh `INIT` scope) `exit()` fails with the
state error — but an `ENTERED` scope with zero submitted items, whose
closing join trivially completes without fault, is left in state `ENTERED`,
not `EXITED`: the early return in `exit` skips the transition (and the
parent-scope restore), contradicting the claim and the lifecycle intent. -/
theorem C7_exit_empty_scope_stays_entered :
    (({} : Scope).exit).exc = some PyExc.IllegalStateError
      ∧ (c7scope.exit).exc = none
      ∧ (c7scope.exit).scope.state = STATE.ENTERED
      ∧ (c7scope.exit).scope.state ≠ STATE.EXITED := by
  refine ⟨by decide, by decide, by decide, by decide⟩

/-- C8: submitting the identical work value a second time while it still
sits in the open (not yet drained) batch fails with
`DuplicateSubmissionError` (the source's `RuntimeError`), and the failed
call leaves the scope — in particular its queued items — unchanged. -/
theorem C8_duplicate_submission (s : Scope) (w : Work)
    (hfirst : (s.asap (Entry.work w)).1 = none) :
    ((s.asap (Entry.work w)).2.asap (Entry.work w))
      = (some PyExc.DuplicateSubmissionError, (s.asap (Entry.work w)).2) := by
  by_cases hd : s.tasks_to_await.any (dupOf (Entry.work w)) = true
  · simp [Scope.asap, hd] at hfirst
  · have h2 : ((s.asap (Entry.work w)).2).tasks_to_await.any (dupOf (Entry.work w)) = true := by
      simp [Scope.asap, hd, List.any_append, dupOf]
    simp [Scope.asap, hd, h2, dupOf]

/-- Witness: C8 on a fresh scope and one work item submitted twice. -/
theorem C8_witness :
    ((({} : Scope).asap (Entry.work (Work.mk 3 1 false []))).2.asap
        (Entry.work (Work.mk 3 1 false [])))
      = (some PyExc.DuplicateSubmissionError,
         (({} : Scope).asap (Entry.work (Work.mk 3 1 false []))).2) :=
  C8_duplicate_submission {} (Work.mk 3 1 false []) rfl

/-- C9: `cancel()` on a scope that was not entered through the
context-manager protocol fails with `UsageError` (the context-manager
assert) instead of issuing the cancellation signal, and leaves the scope
untouched. -/
theorem C9_cancel_outside_context_manager (s : Scope)
    (h : s.used_as_context_manager = false) :
    s.cancel = (some PyExc.UsageError, s)
      ∧ (s.cancel).1 ≠ some PyExc.CancelledError := by
  constructor
  · simp [Scope.cancel, h]
  · simp [Scope.cancel, h]

/-- Witness: C9 on a fresh scope never used as a context manager. -/
theorem C9_witness :
    Scope.cancel {} = (some PyExc.UsageError, {})
      ∧ (Scope.cancel {}).1 ≠ some PyExc.CancelledError :=
  C9_cancel_outside_context_manager {} rfl

/-- C10: `__aexit__` sees a `CancelledError` only as a value, with no mark
of its origin — the scope's own `cancel()`, a `raise` in user code, and a
cancellation injected by a parent scope produce the same exception — so at
boundary closing every escaping `CancelledError` is swallowed alike: the
caller observes no fault, the cascade of cancel requests runs over all
outstanding and previously joined handles, and the scope ends `CANCELLED`. -/
theorem C10_cancellederror_swallowed (s : Scope)
    (hst : s.state = STATE.ENTERED) :
    (s.aexit (some PyExc.CancelledError)).exc = none
      ∧ (s.aexit (some PyExc.CancelledError)).scope.state = STATE.CANCELLED
      ∧ (s.aexit (some PyExc.CancelledError)).scope.cancelled = true
      ∧ (s.aexit (some PyExc.CancelledError)).cancelRequests
          = s.cancel_timeout ++ s.tasks_to_await ++ s.awaited_tasks := by
  have hcs : s.cancel_scope = (none, { s with state := STATE.CANCELLED },
      s.cancel_timeout ++ s.tasks_to_await ++ s.awaited_tasks) := by
    simp [Scope.cancel_scope, hst]
  simp [Scope.aexit, hcs, Scope.cancelled, STATE.value]

def c10scope : Scope :=
  { tasks_to_await := [Entry.work (Work.mk 4 2 false [])],
    awaited_tasks := [Entry.work (Work.mk 6 1 false [])],
    state := STATE.ENTERED, used_as_context_manager := false }

/-- Witness: C10 on an entered scope — note the swallow happens even though
this scope never set its context-manager flag, underlining that only the
exception value is inspected. -/
theorem C10_witness :
    (c10scope.aexit (some PyExc.CancelledError)).exc = none
      ∧ (c10scope.aexit (some PyExc.CancelledError)).scope.state = STATE.CANCELLED
      ∧ (c10scope.aexit (some PyExc.CancelledError)).scope.cancelled = true
      ∧ (c10scope.aexit (some PyExc.CancelledError)).cancelRequests
          = c10scope.cancel_timeout ++ c10scope.tasks_to_await ++ c10scope.awaited_tasks :=
  C10_cancellederror_swallowed c10scope rfl

end Ayo
